import Mathlib

set_option maxRecDepth 100000

/-!
Verification development for `src/api/webhook.py`, a GitHub "release
published" webhook handler that relays a notification and a matching
release asset to a Telegram chat.

The Python source is shallowly embedded below:
* bytes are `List Nat` (each entry is one byte value),
* Python `str` is Lean `String` (or `List Char` where proofs need it),
* machine words of SHA-256 are `Nat` reduced with `% 2 ^ 32`,
* network and JSON effects are an explicit oracle (`World`) plus an
  effect trace (`List Effect`),
* fallible Python calls (exceptions) return `Option`.
-/

/-! ## SHA-256 over byte lists (models `hashlib.sha256`)

Words are `Nat` kept below `2 ^ 32` by `m32`. -/

def m32 (x : Nat) : Nat := x % 4294967296

/-- Right rotation of a 32-bit word, in arithmetic form. -/
def rotr (n x : Nat) : Nat := x / 2 ^ n + x % 2 ^ n * 2 ^ (32 - n)

def shr (n x : Nat) : Nat := x / 2 ^ n

def bnot32 (x : Nat) : Nat := Nat.xor x 4294967295

def chF (x y z : Nat) : Nat := Nat.xor (Nat.land x y) (Nat.land (bnot32 x) z)

def majF (x y z : Nat) : Nat :=
  Nat.xor (Nat.xor (Nat.land x y) (Nat.land x z)) (Nat.land y z)

def bsig0 (x : Nat) : Nat := Nat.xor (Nat.xor (rotr 2 x) (rotr 13 x)) (rotr 22 x)

def bsig1 (x : Nat) : Nat := Nat.xor (Nat.xor (rotr 6 x) (rotr 11 x)) (rotr 25 x)

def ssig0 (x : Nat) : Nat := Nat.xor (Nat.xor (rotr 7 x) (rotr 18 x)) (shr 3 x)

def ssig1 (x : Nat) : Nat := Nat.xor (Nat.xor (rotr 17 x) (rotr 19 x)) (shr 10 x)

def shaK : List Nat :=
  [1116352408, 1899447441, 3049323471, 3921009573, 961987163, 1508970993,
   2453635748, 2870763221, 3624381080, 310598401, 607225278, 1426881987,
   1925078388, 2162078206, 2614888103, 3248222580, 3835390401, 4022224774,
   264347078, 604807628, 770255983, 1249150122, 1555081692, 1996064986,
   2554220882, 2821834349, 2952996808, 3210313671, 3336571891, 3584528711,
   113926993, 338241895, 666307205, 773529912, 1294757372, 1396182291,
   1695183700, 1986661051, 2177026350, 2456956037, 2730485921, 2820302411,
   3259730800, 3345764771, 3516065817, 3600352804, 4094571909, 275423344,
   430227734, 506948616, 659060556, 883997877, 958139571, 1322822218,
   1537002063, 1747873779, 1955562222, 2024104815, 2227730452, 2361852424,
   2428436474, 2756734187, 3204031479, 3329325298]

structure Hash8 where
  a : Nat
  b : Nat
  c : Nat
  d : Nat
  e : Nat
  f : Nat
  g : Nat
  h : Nat
deriving DecidableEq, Repr

def initH : Hash8 :=
  ⟨1779033703, 3144134277, 1013904242, 2773480762,
   1359893119, 2600822924, 528734635, 1541459225⟩

/-- One round of the SHA-256 compression function per `(k, w)` pair. -/
def compressLoop : List (Nat × Nat) → Hash8 → Hash8
  | [], st => st
  | (k, wt) :: rest, st =>
    let t1 := m32 (st.h + bsig1 st.e + chF st.e st.f st.g + k + wt)
    let t2 := m32 (bsig0 st.a + majF st.a st.b st.c)
    compressLoop rest
      ⟨m32 (t1 + t2), st.a, st.b, st.c, m32 (st.d + t1), st.e, st.f, st.g⟩

/-- Message-schedule extension: appends words 16..63. -/
def extendW : Nat → List Nat → List Nat
  | 0, acc => acc
  | n + 1, acc =>
    let t := acc.length
    let w := m32 (ssig1 (acc.getD (t - 2) 0) + acc.getD (t - 7) 0 +
                  ssig0 (acc.getD (t - 15) 0) + acc.getD (t - 16) 0)
    extendW n (acc ++ [w])

/-- Big-endian 32-bit words from bytes (groups of four). -/
def wordsOf : List Nat → List Nat
  | b1 :: b2 :: b3 :: b4 :: rest =>
    (((b1 * 256 + b2) * 256 + b3) * 256 + b4) :: wordsOf rest
  | _ => []

def wordBytes (w : Nat) : List Nat :=
  [w / 2 ^ 24 % 256, w / 2 ^ 16 % 256, w / 2 ^ 8 % 256, w % 256]

def be64 (n : Nat) : List Nat :=
  [n / 2 ^ 56 % 256, n / 2 ^ 48 % 256, n / 2 ^ 40 % 256, n / 2 ^ 32 % 256,
   n / 2 ^ 24 % 256, n / 2 ^ 16 % 256, n / 2 ^ 8 % 256, n % 256]

def addH (s t : Hash8) : Hash8 :=
  ⟨m32 (s.a + t.a), m32 (s.b + t.b), m32 (s.c + t.c), m32 (s.d + t.d),
   m32 (s.e + t.e), m32 (s.f + t.f), m32 (s.g + t.g), m32 (s.h + t.h)⟩

def processBlock (st : Hash8) (block : List Nat) : Hash8 :=
  addH st (compressLoop (shaK.zip (extendW 48 (wordsOf block))) st)

/-- SHA-256 padding: `0x80`, zeros, then the 64-bit big-endian bit length. -/
def padMsg (msg : List Nat) : List Nat :=
  msg ++ 128 :: (List.replicate ((64 - (msg.length + 9) % 64) % 64) 0 ++
    be64 (8 * msg.length))

/-- Fuel-driven split into 64-byte blocks (fuel is the list length). -/
def toBlocksF : Nat → List Nat → List (List Nat)
  | 0, _ => []
  | _, [] => []
  | fuel + 1, xs => xs.take 64 :: toBlocksF fuel (xs.drop 64)

def sha256 (msg : List Nat) : List Nat :=
  let padded := padMsg msg
  let fin := (toBlocksF padded.length padded).foldl processBlock initH
  [fin.a, fin.b, fin.c, fin.d, fin.e, fin.f, fin.g, fin.h].flatMap wordBytes

/-- HMAC-SHA256 (models `hmac.new(key, msg, hashlib.sha256)`). -/
def hmacSha256 (key msg : List Nat) : List Nat :=
  let k0 := if key.length > 64 then sha256 key else key
  let kp := k0 ++ List.replicate (64 - k0.length) 0
  sha256 (kp.map (fun b => Nat.xor b 92) ++
    sha256 (kp.map (fun b => Nat.xor b 54) ++ msg))

def hexChars : List Char := "0123456789abcdef".data

def byteHex (b : Nat) : List Char := [hexChars.getD (b / 16) '0', hexChars.getD (b % 16) '0']

/-- Lowercase hex rendering (models `.hexdigest()`). -/
def hexStr (bs : List Nat) : String := String.mk (bs.flatMap byteHex)

/-- UTF-8-free ASCII encoding used for concrete secrets in tests. -/
def asciiBytes (s : String) : List Nat := s.data.map Char.toNat

/-- The string the handler compares against (webhook.py line 71):
`'sha256=' + hmac.new(SECRET_TOKEN.encode(), body, hashlib.sha256).hexdigest()`. -/
def expectedSignature (secret body : List Nat) : String :=
  "sha256=" ++ hexStr (hmacSha256 secret body)

/-- `hmac.compare_digest(signature_header, expected_signature)` — a
constant-time comparison whose value is plain string equality. -/
def verifySignature (secret body : List Nat) (header : String) : Bool :=
  header == expectedSignature secret body

/-- Sanity vector: SHA-256 of the empty message. -/
theorem sha256_empty_vector :
    hexStr (sha256 []) =
      "e3b0c44298fc1c149afbf4c8996fb92427ae41e4649b934ca495991b7852b855" := by
  decide

/-- Sanity vector: RFC-style HMAC-SHA256 test (key "key", fox message). -/
theorem hmac_fox_vector :
    hexStr (hmacSha256 (asciiBytes "key")
        (asciiBytes "The quick brown fox jumps over the lazy dog")) =
      "f7bc83f430538424b13298e6aa6fb143ef4d59a14946175997479dbc2d1a3cd8" := by
  decide

/-! ## Python string helpers

`str.strip`, `str.splitlines` and slicing are modelled on `List Char`
(Python `len` counts characters, as does `List.length` here). -/

/-- Characters removed by Python `str.strip()` (Unicode whitespace). -/
def isPySpace (c : Char) : Bool :=
  [9, 10, 11, 12, 13, 28, 29, 30, 31, 32, 133, 160, 5760, 8192, 8193, 8194,
    8195, 8196, 8197, 8198, 8199, 8200, 8201, 8202, 8232, 8233, 8239, 8287,
    12288].contains c.toNat

/-- Line terminators recognised by Python `str.splitlines()`. -/
def isLineBreak (c : Char) : Bool :=
  [10, 11, 12, 13, 28, 29, 30, 133, 8232, 8233].contains c.toNat

/-- `str.splitlines()` worker: `acc` is the line being accumulated.
A terminator closes the line; `"\r\n"` counts as one terminator; a
final unterminated line is emitted only when nonempty. -/
def splitlinesGo : List Char → List Char → List (List Char)
  | acc, [] => if acc = [] then [] else [acc]
  | acc, '\r' :: '\n' :: rest => acc :: splitlinesGo [] rest
  | acc, c :: rest =>
    if isLineBreak c then acc :: splitlinesGo [] rest
    else splitlinesGo (acc ++ [c]) rest

def splitlines (t : List Char) : List (List Char) := splitlinesGo [] t

def pyStripL (l : List Char) : List Char := l.dropWhile isPySpace

def pyStripR (l : List Char) : List Char := (l.reverse.dropWhile isPySpace).reverse

/-- Python `str.strip()`. -/
def pyStrip (l : List Char) : List Char := pyStripR (pyStripL l)

/-- `[line[i:i+L] for i in range(0, len(line), L)]` with fuel for
termination (the fuel is instantiated with the line length). -/
def chunksF (L : Nat) : Nat → List Char → List (List Char)
  | _, [] => []
  | 0, _ => []
  | fuel + 1, xs => xs.take L :: chunksF L fuel (xs.drop L)

/-- The accumulation loop of `send_telegram_message_safe`
(webhook.py lines 243-258), for segment limit `L`. -/
def chunkLoop (L : Nat) : List (List Char) → List Char → List (List Char) → List (List Char)
  | [], current, messages =>
    if pyStrip current ≠ [] then messages ++ [pyStrip current] else messages
  | line :: rest, current, messages =>
    if current.length + line.length + 1 ≤ L then
      chunkLoop L rest (current ++ line ++ ['\n']) messages
    else
      let m1 := if current ≠ [] then messages ++ [pyStrip current] else messages
      if line.length > L then
        chunkLoop L rest [] (m1 ++ chunksF L line.length line)
      else
        chunkLoop L rest (line ++ ['\n']) m1

/-- The message chunker as a pure function of text and limit: a text
within the limit is passed through unchanged (line 239-240), longer
text goes through the line-accumulation loop. -/
def pyChunk (L : Nat) (text : List Char) : List (List Char) :=
  if text.length ≤ L then [text] else chunkLoop L (splitlines text) [] []

def TELEGRAM_MAX_MESSAGE_LENGTH : Nat := 4000

/-- The `"📄 消息分段 (i/n)\n\n"` part marker (line 260). -/
def partMark (i n : Nat) : String :=
  "📄 消息分段 (" ++ toString i ++ "/" ++ toString n ++ ")\n\n"

/-- Texts sent by `send_telegram_message_safe`, in order: the chunks,
each prefixed with a part marker when there is more than one. -/
def emitMessages (text : String) : List String :=
  let msgs := pyChunk TELEGRAM_MAX_MESSAGE_LENGTH text.data
  if msgs.length > 1 then
    ((List.range msgs.length).zip msgs).map
      (fun p => partMark (p.1 + 1) msgs.length ++ String.mk p.2)
  else
    msgs.map String.mk

/-! ## Markdown escaping (`safe_markdown`, lines 265-268) -/

/-- Per-character effect of
`text.replace('`',"'").replace('*','×').replace('[','(').replace(']',')')`
(each replaced pattern is a single character, so the chain is a map). -/
def escChar (c : Char) : Char :=
  if c == '`' then Char.ofNat 39
  else if c == '*' then '×'
  else if c == '[' then '('
  else if c == ']' then ')'
  else c

/-- `safe_markdown` on a (non-None) string; `if not text: return ""`. -/
def safe_markdown (s : String) : String :=
  if s == "" then "" else String.mk (s.data.map escChar)

/-- `safe_markdown` including the `None` case of the falsy test. -/
def safe_markdownO : Option String → String
  | none => ""
  | some s => safe_markdown s

/-! ## Asset-name pattern (`ANY_KERNEL_PATTERN`, line 27)

`re.compile(r'any.*kernel', re.IGNORECASE)` searched with `.search`:
the match succeeds iff the lowercased name contains `"any"` starting at
some index `p` and `"kernel"` starting at some index `q ≥ p + 3`. -/

def matchHere : List Char → List Char → Bool
  | [], _ => true
  | _ :: _, [] => false
  | p :: ps, c :: cs => p == c && matchHere ps cs

def containsSeq : List Char → List Char → Bool
  | pat, [] => matchHere pat []
  | pat, c :: cs => matchHere pat (c :: cs) || containsSeq pat cs

def anyThenKernel : List Char → Bool
  | [] => false
  | c :: cs =>
    (matchHere ['a', 'n', 'y'] (c :: cs) &&
      containsSeq ['k', 'e', 'r', 'n', 'e', 'l'] ((c :: cs).drop 3))
    || anyThenKernel cs

def lowerChar (c : Char) : Char := c.toLower

/-- `bool(ANY_KERNEL_PATTERN.search(name))`. -/
def anyKernelSearch (name : String) : Bool :=
  anyThenKernel (name.data.map lowerChar)

/-- Sanity: the spec's own example listing selects `AnyKernel3-v1.zip`. -/
theorem anyKernel_examples :
    anyKernelSearch "AnyKernel3-v1.zip" = true ∧
      anyKernelSearch "changelog.txt" = false := by
  decide

/-! ## Data model

Parsed JSON dictionaries become structures of `Option` fields
(`dict.get(key)`); Python string truthiness (`if s:` / `x or y`) and
`None` rendering in f-strings get explicit helpers. -/

structure RepoInfo where
  full_name : Option String
  html_url : Option String
deriving DecidableEq, Repr

structure ReleaseInfo where
  id : Option Nat
  tag_name : Option String
  name : Option String
  html_url : Option String
  published_at : Option String
  body : Option String
deriving DecidableEq, Repr

structure SenderInfo where
  login : Option String
  html_url : Option String
deriving DecidableEq, Repr

structure EventData where
  action : Option String
  repository : RepoInfo
  release : ReleaseInfo
  sender : SenderInfo
deriving DecidableEq, Repr

structure Asset where
  name : Option String
  size : Option Nat
  browser_download_url : Option String
  url : Option String
deriving DecidableEq, Repr

/-- Python truthiness of an optional string (`None` and `''` are falsy). -/
def optTruthy : Option String → Bool
  | some s => s != ""
  | none => false

/-- Python truthiness of an optional integer (`None` and `0` are falsy). -/
def natTruthy : Option Nat → Bool
  | some n => n != 0
  | none => false

/-- `x or d` with a string literal default. -/
def pyOrS : Option String → String → String
  | some s, d => if s == "" then d else s
  | none, d => d

/-- `x or y` on two optional strings. -/
def pyOrO : Option String → Option String → Option String
  | some s, y => if s == "" then y else some s
  | none, y => y

/-- f-string rendering of a possibly-`None` value (`None` prints "None"). -/
def pyStr : Option String → String
  | some s => s
  | none => "None"

/-! ## Constants (webhook.py lines 26-31) -/

def MAX_CONTENT_LENGTH : Nat := 10485760

def MAX_RETRY_ATTEMPTS : Nat := 4

def TELEGRAM_MAX_UPLOAD_BYTES : Nat := 20971520

def validPaths : List String := ["/api/webhook", "/webhook"]

/-! ## Effects and oracle

Outbound calls are recorded as an ordered trace.  The `World` oracle
gives the outcome of each external interaction: `parse` is
`json.loads` plus field extraction (`none` = raises), `fetchAssets k`
is the GitHub release query on attempt `k` (`none` = request failed,
modelling `fetch_release_assets` returning `None`), the download
oracles return `none` where the Python call raises or fails, and
`sendDocOk` is the boolean result of `send_telegram_document_bytes`.
`time.sleep` calls are not recorded. -/

inductive Effect where
  | parseBody : Effect
  | sendMessage (text : String) : Effect
  | sendDocument (filename caption : String) : Effect
  | apiQuery (attempt : Nat) : Effect
deriving DecidableEq, Repr

structure World where
  parse : List Nat → Option EventData
  fetchAssets : Nat → Option (List Asset)
  downloadApi : Asset → Option (List Nat)
  downloadBrowser : Asset → Option (List Nat)
  sendDocOk : Bool

structure Config where
  secret : List Nat

structure Req where
  path : String
  sigHeader : Option String
  contentLength : Option Nat
  rfile : List Nat

structure HttpResponse where
  status : Nat
  body : String
deriving DecidableEq, Repr

def respOK : HttpResponse := ⟨200, "OK"⟩

/-- `send_error(code, ...)`; the HTML error page body is elided. -/
def respErr (code : Nat) : HttpResponse := ⟨code, ""⟩

/-! ## Message texts (exact strings built by the handler) -/

/-- The notification summary (webhook.py lines 104-111).  Release
fields are embedded raw, with the defaults of each `.get`. -/
def buildMessage (data : EventData) : String :=
  "🔔 **新版本发布通知**\n\n📦 仓库: [" ++ data.repository.full_name.getD "unknown/repo" ++
    "](" ++ data.repository.html_url.getD "" ++ ")\n🏷 版本: [" ++
    data.release.tag_name.getD "unknown" ++ "](" ++ data.release.html_url.getD "" ++
    ") - " ++ data.release.name.getD "" ++ "\n👤 发布者: [" ++
    data.sender.login.getD "" ++ "](" ++ data.sender.html_url.getD "" ++
    ")\n📅 发布时间: " ++ data.release.published_at.getD "" ++ "\n\n" ++
    data.release.body.getD ""

/-- The "no asset found" notice (webhook.py lines 155-163). -/
def noAssetMsg (tag_name url : String) : String :=
  "⚠️ 未检测到内核刷机包附件\n\n这可能是由于：\n1. 附件尚未完成上传（GitHub 延迟）\n" ++
    "2. 附件名称不符合模式\n3. 发布未包含内核刷机包\n\n请检查 GitHub 发布页面：\n[" ++
    tag_name ++ " 发布页面](" ++ url ++ ")"

/-- The link-only fallback (webhook.py lines 229-232): escaped asset
name plus `asset_browser_url or asset.get('url')` rendered f-string
style. -/
def fallbackMsg (a : Asset) : String :=
  "⚠️ 无法自动上传附件: `" ++ safe_markdown (pyOrS a.name "未知") ++
    "`\n\n请手动下载：\n" ++ pyStr (pyOrO a.browser_download_url a.url)

/-- Caption of the uploaded document (webhook.py line 216). -/
def docCaption (release : ReleaseInfo) (a : Asset) : String :=
  release.tag_name.getD "" ++ " 的附件：" ++ pyStr a.name

/-! ## Handler logic -/

/-- `if an and ANY_KERNEL_PATTERN.search(an)` (webhook.py line 138). -/
def assetMatches (a : Asset) : Bool :=
  optTruthy a.name && anyKernelSearch (a.name.getD "")

/-- Whether `fetch_release_assets` performs an HTTP query (lines
300-306): it does unless both `release_id` and `tag_name` are falsy. -/
def fetchQueried (release_id : Option Nat) (tag_name : String) : Bool :=
  natTruthy release_id || tag_name != ""

/-- `download_asset_content` (lines 317-346): API url first (binary
accept header), else the public url, else raise (`none`). -/
def downloadAssetContent (w : World) (a : Asset) : Option (List Nat) :=
  if optTruthy a.url then w.downloadApi a
  else if optTruthy a.browser_download_url then w.downloadBrowser a
  else none

/-- Content available after the fallback retry on
`browser_download_url` (lines 191-208). -/
def resolvedContent (w : World) (a : Asset) : Option (List Nat) :=
  match downloadAssetContent w a with
  | some c => some c
  | none => if optTruthy a.browser_download_url then w.downloadBrowser a else none

/-- `process_single_asset` (lines 178-233) as its trace of outbound
calls: upload when the content fits the 20 MB ceiling, otherwise (or
on any failure) one link-only fallback text. -/
def processSingleAsset (w : World) (a : Asset) (release : ReleaseInfo) : List Effect :=
  match resolvedContent w a with
  | some bytes =>
    if bytes.length ≤ TELEGRAM_MAX_UPLOAD_BYTES then
      if w.sendDocOk then
        [Effect.sendDocument (pyOrS a.name "file.bin") (docCaption release a)]
      else
        [Effect.sendDocument (pyOrS a.name "file.bin") (docCaption release a),
         Effect.sendMessage (fallbackMsg a)]
    else
      [Effect.sendMessage (fallbackMsg a)]
  | none => [Effect.sendMessage (fallbackMsg a)]

/-- The retry loop of `do_POST` (lines 118-148) over the remaining
attempt numbers: each attempt re-queries, treats a failed query as an
empty listing, and stops at the first matching asset. -/
def retryLoop (w : World) (release_id : Option Nat) (tag_name : String) :
    List Nat → Option Asset × List Effect
  | [] => (none, [])
  | k :: rest =>
    let queried := fetchQueried release_id tag_name
    let effs := if queried then [Effect.apiQuery k] else []
    let assets := (if queried then w.fetchAssets k else none).getD []
    match assets.find? assetMatches with
    | some a => (some a, effs)
    | none =>
      let next := retryLoop w release_id tag_name rest
      (next.1, effs ++ next.2)

/-- The `try` block of `do_POST` after JSON parsing (lines 84-168):
filter on the action, send the summary, resolve the asset with
retries, then deliver it or the "no asset" notice. -/
def handleEvent (w : World) (data : EventData) : HttpResponse × List Effect :=
  if data.action ≠ some "published" then (respOK, [])
  else
    let tag_name := data.release.tag_name.getD "unknown"
    let sendEffs := (emitMessages (buildMessage data)).map Effect.sendMessage
    let res := retryLoop w data.release.id tag_name (List.range' 1 MAX_RETRY_ATTEMPTS)
    match res.1 with
    | some a => (respOK, sendEffs ++ res.2 ++ processSingleAsset w a data.release)
    | none =>
      (respOK, sendEffs ++ res.2 ++
        [Effect.sendMessage (noAssetMsg tag_name (data.release.html_url.getD ""))])

/-- `do_POST` (lines 46-173): path check, signature-header presence,
declared-length guard, HMAC verification, JSON parse, then the event
logic.  The body is the first `Content-Length` bytes of the stream. -/
def doPOST (cfg : Config) (w : World) (req : Req) : HttpResponse × List Effect :=
  if req.path ∉ validPaths then (respErr 404, [])
  else
    match req.sigHeader with
    | none => (respErr 403, [])
    | some sig =>
      let content_length := req.contentLength.getD 0
      if content_length > MAX_CONTENT_LENGTH then (respErr 413, [])
      else
        let body := req.rfile.take content_length
        if !verifySignature cfg.secret body sig then (respErr 403, [])
        else
          match w.parse body with
          | none => (respErr 400, [Effect.parseBody])
          | some data =>
            let res := handleEvent w data
            (res.1, Effect.parseBody :: res.2)

/-! ## Helper lemmas about the escaping map -/

theorem escChar_not_special (c : Char) :
    escChar c ≠ '`' ∧ escChar c ≠ '*' ∧ escChar c ≠ '[' ∧ escChar c ≠ ']' := by
  unfold escChar
  split_ifs <;> refine ⟨?_, ?_, ?_, ?_⟩ <;> first | decide | simp_all

theorem escChar_eq_self (d : Char) (h1 : d ≠ '`') (h2 : d ≠ '*')
    (h3 : d ≠ '[') (h4 : d ≠ ']') : escChar d = d := by
  unfold escChar
  split_ifs <;> simp_all

theorem escChar_fix (c : Char) : escChar (escChar c) = escChar c :=
  escChar_eq_self _ (escChar_not_special c).1 (escChar_not_special c).2.1
    (escChar_not_special c).2.2.1 (escChar_not_special c).2.2.2

theorem string_eq_iff_data (s t : String) : s = t ↔ s.data = t.data :=
  String.ext_iff

theorem safe_markdown_data (s : String) (h : s.data ≠ []) :
    (safe_markdown s).data = s.data.map escChar := by
  unfold safe_markdown
  have hs : (s == "") = false := by
    refine beq_eq_false_iff_ne.mpr fun he => h ?_
    simpa [string_eq_iff_data] using he
  simp [hs]

theorem contains_eq_false_of_not_mem {l : List Char} {c : Char}
    (h : c ∉ l) : l.contains c = false := by
  simp [h]

theorem safe_markdown_not_contains (s : String) (c : Char)
    (hc : ∀ d : Char, escChar d ≠ c) : (safe_markdown s).data.contains c = false := by
  by_cases h : s.data = []
  · unfold safe_markdown
    have : (s == "") = true := by
      simpa [string_eq_iff_data] using beq_iff_eq.mpr (string_eq_iff_data s "" |>.mpr h)
    simp [this]
  · rw [safe_markdown_data s h]
    refine contains_eq_false_of_not_mem fun hmem => ?_
    rcases List.mem_map.mp hmem with ⟨d, _, hd⟩
    exact hc d hd

theorem safe_markdown_idem_aux (s : String) :
    safe_markdown (safe_markdown s) = safe_markdown s := by
  by_cases h : s.data = []
  · have hs : s = "" := (string_eq_iff_data s "").mpr (by simpa using h)
    subst hs
    rfl
  · have h2 : (safe_markdown s).data ≠ [] := by
      rw [safe_markdown_data s h]
      simpa using h
    rw [string_eq_iff_data, safe_markdown_data _ h2, safe_markdown_data s h,
      List.map_map]
    exact List.map_congr_left fun c _ => escChar_fix c

/-- C10: `safe_markdown` is idempotent, its output never contains a
backtick, asterisk, `[` or `]`, and empty or missing (`None`) input
maps to the empty string. -/
theorem c10_safe_markdown :
    ∀ x : String,
      safe_markdown (safe_markdown x) = safe_markdown x ∧
      (safe_markdown x).data.contains '`' = false ∧
      (safe_markdown x).data.contains '*' = false ∧
      (safe_markdown x).data.contains '[' = false ∧
      (safe_markdown x).data.contains ']' = false ∧
      safe_markdown "" = "" ∧ safe_markdownO none = "" := by
  intro x
  refine ⟨safe_markdown_idem_aux x, ?_, ?_, ?_, ?_, rfl, rfl⟩ <;>
    exact safe_markdown_not_contains x _ fun d =>
      by have := escChar_not_special d; tauto

/-- C10 witness: the properties evaluated at a concrete string. -/
theorem c10_safe_markdown_witness :
    safe_markdown (safe_markdown "a`b*[c]") = safe_markdown "a`b*[c]" ∧
      (safe_markdown "a`b*[c]").data.contains '`' = false ∧
      (safe_markdown "a`b*[c]").data.contains '*' = false ∧
      (safe_markdown "a`b*[c]").data.contains '[' = false ∧
      (safe_markdown "a`b*[c]").data.contains ']' = false ∧
      safe_markdown "" = "" ∧ safe_markdownO none = "" :=
  c10_safe_markdown "a`b*[c]"

/-! ## Helper lemmas about the handler -/

theorem handleEvent_status (w : World) (data : EventData) :
    (handleEvent w data).1 = respOK := by
  rw [handleEvent]
  split
  · rfl
  · dsimp only
    split <;> rfl

theorem verify_iff (S B : List Nat) (hdr : String) :
    verifySignature S B hdr = true ↔ hdr = expectedSignature S B :=
  beq_iff_eq

theorem verify_flip (S B B' : List Nat)
    (hne : expectedSignature S B' ≠ expectedSignature S B) :
    verifySignature S B' (expectedSignature S B) = false :=
  beq_eq_false_iff_ne.mpr (Ne.symm hne)

theorem doPOST_auth_iff (cfg : Config) (w : World) (req : Req) (sig : String)
    (hpath : req.path ∈ validPaths) (hsig : req.sigHeader = some sig)
    (hlen : req.contentLength.getD 0 ≤ MAX_CONTENT_LENGTH) :
    ((doPOST cfg w req).1.status ≠ 403 ↔
      sig = expectedSignature cfg.secret
        (req.rfile.take (req.contentLength.getD 0))) := by
  rw [doPOST, if_neg (not_not_intro hpath), hsig]
  dsimp only
  rw [if_neg (Nat.not_lt.mpr hlen)]
  by_cases hv : sig = expectedSignature cfg.secret
      (req.rfile.take (req.contentLength.getD 0))
  · rw [(verify_iff _ _ _).mpr hv]
    rw [if_neg (by simp)]
    cases hp : w.parse (req.rfile.take (req.contentLength.getD 0)) with
    | none =>
      simp only [hp]
      exact iff_of_true (by decide) hv
    | some data =>
      simp only [hp]
      exact iff_of_true (by simp [handleEvent_status w data, respOK]) hv
  · have hcond : (!verifySignature cfg.secret
        (req.rfile.take (req.contentLength.getD 0)) sig) = true := by
      unfold verifySignature
      rw [beq_eq_false_iff_ne.mpr hv]
      rfl
    rw [if_pos hcond]
    exact iff_of_false (by decide) hv

/-! ## Concrete fixtures used by witnesses and counterexamples -/

def trivWorld : World :=
  ⟨fun _ => none, fun _ => none, fun _ => none, fun _ => none, false⟩

def cfg0 : Config := ⟨asciiBytes "s3cret"⟩

/-- C1: the handler accepts a request as authentic exactly when the
received `X-Hub-Signature-256` header equals
`'sha256=' + hex(HMAC-SHA256(secret, body))` computed over the received
bytes; a signature differing from that string is rejected, and a body
whose HMAC digest differs from the original one fails against the
original signature. -/
theorem c1_signature_verification :
    (∀ (S B : List Nat) (hdr : String),
        verifySignature S B hdr = true ↔ hdr = expectedSignature S B) ∧
    (∀ S B B' : List Nat,
        expectedSignature S B' ≠ expectedSignature S B →
        verifySignature S B' (expectedSignature S B) = false) ∧
    (∀ (cfg : Config) (w : World) (req : Req) (sig : String),
        req.path ∈ validPaths → req.sigHeader = some sig →
        req.contentLength.getD 0 ≤ MAX_CONTENT_LENGTH →
        ((doPOST cfg w req).1.status ≠ 403 ↔
          sig = expectedSignature cfg.secret
            (req.rfile.take (req.contentLength.getD 0)))) :=
  ⟨verify_iff, verify_flip, doPOST_auth_iff⟩

/-- C1 witness: a one-byte body change with a different digest fails
against the old signature, and a concretely signed request is accepted
by the handler-level characterisation. -/
theorem c1_signature_verification_witness :
    verifySignature (asciiBytes "s3cret") (asciiBytes "body-B")
        (expectedSignature (asciiBytes "s3cret") (asciiBytes "body-A")) = false ∧
      (((doPOST cfg0 trivWorld
          { path := "/webhook",
            sigHeader := some (expectedSignature (asciiBytes "s3cret") []),
            contentLength := some 0, rfile := [] }).1.status ≠ 403) ↔
        expectedSignature (asciiBytes "s3cret") [] =
          expectedSignature (asciiBytes "s3cret") []) :=
  ⟨c1_signature_verification.2.1 _ _ _ (by decide),
   c1_signature_verification.2.2 cfg0 trivWorld _ _ (by decide) rfl (by decide)⟩

theorem doPOST_missing_header (cfg : Config) (w : World) (req : Req)
    (hpath : req.path ∈ validPaths) (h : req.sigHeader = none) :
    doPOST cfg w req = (respErr 403, []) := by
  rw [doPOST, if_neg (not_not_intro hpath), h]

theorem doPOST_oversized (cfg : Config) (w : World) (req : Req) (sig : String)
    (hpath : req.path ∈ validPaths) (hsig : req.sigHeader = some sig)
    (hlen : req.contentLength.getD 0 > MAX_CONTENT_LENGTH) :
    doPOST cfg w req = (respErr 413, []) := by
  rw [doPOST, if_neg (not_not_intro hpath), hsig]
  dsimp only
  rw [if_pos hlen]

theorem doPOST_badsig (cfg : Config) (w : World) (req : Req) (sig : String)
    (hpath : req.path ∈ validPaths) (hsig : req.sigHeader = some sig)
    (hlen : req.contentLength.getD 0 ≤ MAX_CONTENT_LENGTH)
    (hbad : verifySignature cfg.secret
      (req.rfile.take (req.contentLength.getD 0)) sig = false) :
    doPOST cfg w req = (respErr 403, []) := by
  rw [doPOST, if_neg (not_not_intro hpath), hsig]
  dsimp only
  rw [if_neg (Nat.not_lt.mpr hlen)]
  rw [if_pos (by rw [hbad]; rfl)]

/-- Requests used by witnesses and counterexamples:
fields are path, signature header, Content-Length, stream bytes. -/
def reqNoSigBig : Req := ⟨"/webhook", none, some 10485761, []⟩

def reqSigBig : Req := ⟨"/webhook", some "x", some 10485761, [7]⟩

def reqBadSigBig : Req := ⟨"/webhook", some "sha256=bad", some 10485761, []⟩

def reqNoSig : Req := ⟨"/webhook", none, some 0, []⟩

def reqBadSig : Req := ⟨"/api/webhook", some "sha256=zz", some 0, []⟩

def reqSigned : Req := ⟨"/webhook", some (expectedSignature cfg0.secret []), some 0, []⟩

/-- C9 counterexample: a request on a valid path with an oversized
declared length but no signature header is answered 403 (the
missing-header check at lines 54-58 runs first), not 413 as the claim
states. -/
theorem c9_counterexample :
    reqNoSigBig.contentLength.getD 0 > MAX_CONTENT_LENGTH ∧
      (doPOST cfg0 trivWorld reqNoSigBig).1.status = 403 ∧
      (doPOST cfg0 trivWorld reqNoSigBig).1.status ≠ 413 := by
  decide

/-- C9 amended: when a signature header is present, a declared content
length above the 10 MB ceiling is rejected 413 with no effects, before
the body is read (the response is independent of the stream bytes) and
before any HMAC verification (the signature value is arbitrary). -/
theorem c9_oversized_413 :
    ∀ (cfg : Config) (w : World) (req : Req) (sig : String),
      req.path ∈ validPaths → req.sigHeader = some sig →
      req.contentLength.getD 0 > MAX_CONTENT_LENGTH →
      doPOST cfg w req = (respErr 413, []) ∧
        (∀ rfile' : List Nat,
          doPOST cfg w { req with rfile := rfile' } = (respErr 413, [])) :=
  fun cfg w req sig hpath hsig hlen =>
    ⟨doPOST_oversized cfg w req sig hpath hsig hlen,
     fun _ => doPOST_oversized cfg w _ sig hpath hsig hlen⟩

/-- C9 witness: the 413 rejection evaluated on a concrete oversized
request, for two different body streams. -/
theorem c9_oversized_413_witness :
    doPOST cfg0 trivWorld reqSigBig = (respErr 413, []) ∧
      doPOST cfg0 trivWorld { reqSigBig with rfile := [9] } = (respErr 413, []) :=
  ⟨(c9_oversized_413 cfg0 trivWorld reqSigBig "x" (by decide) rfl (by decide)).1,
   (c9_oversized_413 cfg0 trivWorld reqSigBig "x" (by decide) rfl
     (by decide)).2 [9]⟩

/-- C2 counterexample: a request on a valid path whose present
signature header does not verify, but whose declared length exceeds the
ceiling, is answered 413, not 403 as the claim states for every
non-verifying request. -/
theorem c2_counterexample :
    ("/webhook" ∈ validPaths) ∧
      verifySignature cfg0.secret [] "sha256=bad" = false ∧
      (doPOST cfg0 trivWorld reqBadSigBig).1.status = 413 := by
  refine ⟨by decide, by decide, ?_⟩
  rw [doPOST_oversized cfg0 trivWorld _ "sha256=bad" (by decide) rfl (by decide)]
  rfl

/-- C2 amended: on a valid path, a missing signature header — or, when
the declared length is within the ceiling, a signature that does not
verify against the received body — yields 403 with an empty effect
trace: no JSON parse and no outbound messaging calls.  (An oversized
declared length with a present header is rejected 413 first.) -/
theorem c2_authfail_rejected :
    ∀ (cfg : Config) (w : World) (req : Req),
      req.path ∈ validPaths →
      (req.sigHeader = none → doPOST cfg w req = (respErr 403, [])) ∧
        (∀ sig : String, req.sigHeader = some sig →
          req.contentLength.getD 0 ≤ MAX_CONTENT_LENGTH →
          verifySignature cfg.secret
            (req.rfile.take (req.contentLength.getD 0)) sig = false →
          doPOST cfg w req = (respErr 403, [])) :=
  fun cfg w req hpath =>
    ⟨fun h => doPOST_missing_header cfg w req hpath h,
     fun sig hsig hlen hbad => doPOST_badsig cfg w req sig hpath hsig hlen hbad⟩

/-- C2 witness: both rejection modes evaluated on concrete requests. -/
theorem c2_authfail_rejected_witness :
    doPOST cfg0 trivWorld reqNoSig = (respErr 403, []) ∧
      doPOST cfg0 trivWorld reqBadSig = (respErr 403, []) :=
  ⟨(c2_authfail_rejected cfg0 trivWorld _ (by decide)).1 rfl,
   (c2_authfail_rejected cfg0 trivWorld _ (by decide)).2 "sha256=zz" rfl
     (by decide) (by decide)⟩

/-- C8: an authenticated, well-formed event whose action is not
`published` is acknowledged 200 with body "OK" and produces no outbound
calls — the trace holds only the JSON parse. -/
theorem c8_nonpublished_ack_no_effects :
    ∀ (cfg : Config) (w : World) (req : Req) (sig : String) (data : EventData),
      req.path ∈ validPaths → req.sigHeader = some sig →
      req.contentLength.getD 0 ≤ MAX_CONTENT_LENGTH →
      sig = expectedSignature cfg.secret
        (req.rfile.take (req.contentLength.getD 0)) →
      w.parse (req.rfile.take (req.contentLength.getD 0)) = some data →
      data.action ≠ some "published" →
      doPOST cfg w req = (respOK, [Effect.parseBody]) := by
  intro cfg w req sig data hpath hsig hlen hgood hparse hact
  rw [doPOST, if_neg (not_not_intro hpath), hsig]
  dsimp only
  rw [if_neg (Nat.not_lt.mpr hlen)]
  rw [(verify_iff _ _ _).mpr hgood, if_neg (by simp)]
  simp only [hparse]
  have hh : handleEvent w data = (respOK, []) := by rw [handleEvent, if_pos hact]
  simp [hh]

def dataCreated : EventData :=
  ⟨some "created", ⟨none, none⟩, ⟨none, none, none, none, none, none⟩,
   ⟨none, none⟩⟩

def worldCreated : World :=
  ⟨fun _ => some dataCreated, fun _ => none, fun _ => none, fun _ => none, false⟩

/-- C8 witness: a concrete signed `action="created"` request is
acknowledged with no side effects. -/
theorem c8_nonpublished_ack_no_effects_witness :
    doPOST cfg0 worldCreated reqSigned = (respOK, [Effect.parseBody]) :=
  c8_nonpublished_ack_no_effects cfg0 worldCreated _ _ dataCreated (by decide)
    rfl (by decide) rfl rfl (by decide)

/-! ## Pattern semantics: `any.*kernel` search -/

theorem matchHere_iff (p : List Char) : ∀ s : List Char,
    matchHere p s = true ↔ ∃ t, s = p ++ t := by
  induction p with
  | nil =>
    intro s
    constructor
    · intro _
      exact ⟨s, rfl⟩
    · intro _
      rfl
  | cons ph pt ih =>
    intro s
    cases s with
    | nil =>
      simp [matchHere]
    | cons c cs =>
      rw [matchHere, Bool.and_eq_true, beq_iff_eq, ih cs]
      constructor
      · rintro ⟨rfl, t, rfl⟩
        exact ⟨t, rfl⟩
      · rintro ⟨t, h⟩
        injection h with h1 h2
        exact ⟨h1.symm ▸ rfl, t, h2⟩

theorem containsSeq_iff (pat : List Char) : ∀ s : List Char,
    containsSeq pat s = true ↔ ∃ u v, s = u ++ pat ++ v := by
  intro s
  induction s with
  | nil =>
    rw [containsSeq, matchHere_iff]
    constructor
    · rintro ⟨t, ht⟩
      exact ⟨[], t, ht⟩
    · rintro ⟨u, v, h⟩
      rcases List.append_eq_nil.mp h.symm with ⟨hup, hv⟩
      rcases List.append_eq_nil.mp hup with ⟨hu, hp⟩
      exact ⟨[], by simp [hp]⟩
  | cons c cs ih =>
    rw [containsSeq, Bool.or_eq_true, matchHere_iff, ih]
    constructor
    · rintro (⟨t, ht⟩ | ⟨u, v, rfl⟩)
      · exact ⟨[], t, by simpa using ht⟩
      · exact ⟨c :: u, v, rfl⟩
    · rintro ⟨u, v, h⟩
      cases u with
      | nil =>
        left
        exact ⟨v, by simpa using h⟩
      | cons u0 us =>
        right
        injection h with h1 h2
        exact ⟨us, v, h2⟩

theorem anyThenKernel_iff : ∀ s : List Char,
    anyThenKernel s = true ↔
      ∃ x y z, s = x ++ ['a', 'n', 'y'] ++ y ++ ['k', 'e', 'r', 'n', 'e', 'l'] ++ z := by
  intro s
  induction s with
  | nil =>
    rw [anyThenKernel]
    constructor
    · intro h
      exact absurd h (by decide)
    · rintro ⟨x, y, z, h⟩
      have hlen := congrArg List.length h
      simp [List.length_append] at hlen
      exact absurd hlen (by omega)
  | cons c cs ih =>
    rw [anyThenKernel, Bool.or_eq_true, Bool.and_eq_true, matchHere_iff,
      containsSeq_iff, ih]
    constructor
    · rintro (⟨⟨t, ht⟩, u, v, huv⟩ | ⟨x, y, z, rfl⟩)
      · have hd : (c :: cs).drop 3 = t := by rw [ht]; simp
        rw [hd] at huv
        refine ⟨[], u, v, ?_⟩
        rw [ht, huv]
        rfl
      · exact ⟨c :: x, y, z, rfl⟩
    · rintro ⟨x, y, z, h⟩
      cases x with
      | nil =>
        left
        have h' : c :: cs =
            'a' :: 'n' :: 'y' :: (y ++ (['k', 'e', 'r', 'n', 'e', 'l'] ++ z)) := by
          simpa [List.append_assoc] using h
        refine ⟨⟨y ++ ['k', 'e', 'r', 'n', 'e', 'l'] ++ z, by
          simpa [List.append_assoc] using h'⟩, y, z, ?_⟩
        rw [h']
        simp [List.append_assoc]
      | cons x0 xs =>
        right
        injection h with h1 h2
        exact ⟨xs, y, z, h2⟩

/-! ## First-match characterisation and effect counting -/

theorem find?_first_match {α : Type} (p : α → Bool) :
    ∀ (l : List α) (a : α), l.find? p = some a →
      ∃ pre suf, l = pre ++ a :: suf ∧ p a = true ∧ ∀ b ∈ pre, p b = false := by
  intro l
  induction l with
  | nil =>
    intro a h
    simp [List.find?] at h
  | cons x xs ih =>
    intro a h
    rw [List.find?] at h
    cases hx : p x with
    | true =>
      rw [hx] at h
      injection h with h1
      subst h1
      exact ⟨[], xs, rfl, hx, by simp⟩
    | false =>
      rw [hx] at h
      rcases ih a h with ⟨pre, suf, hl, hpa, hpre⟩
      refine ⟨x :: pre, suf, by rw [List.cons_append, hl], hpa, ?_⟩
      intro b hb
      rcases List.mem_cons.mp hb with rfl | hb2
      · exact hx
      · exact hpre b hb2

theorem assetMatches_iff (a : Asset) :
    assetMatches a = true ↔
      ∃ n : String, a.name = some n ∧ n ≠ "" ∧
        ∃ x y z, n.data.map lowerChar =
          x ++ ['a', 'n', 'y'] ++ y ++ ['k', 'e', 'r', 'n', 'e', 'l'] ++ z := by
  cases hn : a.name with
  | none =>
    simp [assetMatches, optTruthy, hn]
  | some n =>
    rw [assetMatches, hn]
    simp only [optTruthy, Option.getD_some, Bool.and_eq_true, bne_iff_ne,
      ne_eq]
    rw [anyKernelSearch, anyThenKernel_iff]
    constructor
    · rintro ⟨hne, x, y, z, hx⟩
      exact ⟨n, rfl, hne, x, y, z, hx⟩
    · rintro ⟨n', hn', hne, x, y, z, hx⟩
      injection hn' with h1
      subst h1
      exact ⟨hne, x, y, z, hx⟩

def isDocE : Effect → Bool
  | Effect.sendDocument _ _ => true
  | _ => false

def isQueryE : Effect → Bool
  | Effect.apiQuery _ => true
  | _ => false

/-- Number of `sendDocument` calls in a trace. -/
def docCount (l : List Effect) : Nat := l.countP isDocE

/-- Number of release-API queries in a trace. -/
def queryCount (l : List Effect) : Nat := l.countP isQueryE

theorem docCount_append (l1 l2 : List Effect) :
    docCount (l1 ++ l2) = docCount l1 + docCount l2 :=
  List.countP_append _ _ _

theorem queryCount_append (l1 l2 : List Effect) :
    queryCount (l1 ++ l2) = queryCount l1 + queryCount l2 :=
  List.countP_append _ _ _

theorem docCount_map_sendMessage (ts : List String) :
    docCount (ts.map Effect.sendMessage) = 0 := by
  induction ts with
  | nil => rfl
  | cons t ts ih => simp [docCount, List.countP_cons, isDocE] at ih ⊢

theorem queryCount_map_sendMessage (ts : List String) :
    queryCount (ts.map Effect.sendMessage) = 0 := by
  induction ts with
  | nil => rfl
  | cons t ts ih => simp [queryCount, List.countP_cons, isQueryE] at ih ⊢

theorem queryCount_cons_apiQuery (k : Nat) (l : List Effect) :
    queryCount (Effect.apiQuery k :: l) = queryCount l + 1 := by
  simp [queryCount, List.countP_cons, isQueryE]

theorem docCount_retryLoop (w : World) (rid : Option Nat) (tag : String) :
    ∀ attempts : List Nat, docCount (retryLoop w rid tag attempts).2 = 0 := by
  intro attempts
  induction attempts with
  | nil => rfl
  | cons k rest ih =>
    rw [retryLoop]
    dsimp only
    cases hf : ((if fetchQueried rid tag then w.fetchAssets k else none).getD
        []).find? assetMatches with
    | some a =>
      cases hq : fetchQueried rid tag <;>
        simp [hf, hq, docCount, List.countP_cons, isDocE]
    | none =>
      cases hq : fetchQueried rid tag <;>
        simp [hf, hq, docCount, List.countP_cons, isDocE, docCount_append] <;>
        simpa [docCount, List.countP_cons, isDocE] using ih

theorem queryCount_retryLoop (w : World) (rid : Option Nat) (tag : String) :
    ∀ attempts : List Nat,
      queryCount (retryLoop w rid tag attempts).2 ≤ attempts.length := by
  intro attempts
  induction attempts with
  | nil => simp [retryLoop, queryCount]
  | cons k rest ih =>
    rw [retryLoop]
    dsimp only
    cases hf : ((if fetchQueried rid tag then w.fetchAssets k else none).getD
        []).find? assetMatches with
    | some a =>
      cases hq : fetchQueried rid tag
      · simp [hf, hq, queryCount]
      · simp only [hf, hq, if_true, List.length_cons]
        rw [queryCount_cons_apiQuery]
        simp [queryCount]
    | none =>
      cases hq : fetchQueried rid tag
      · simp only [hf, hq, if_false, List.nil_append, List.length_cons]
        exact Nat.le_succ_of_le ih
      · simp only [hf, hq, if_true, List.length_cons, List.cons_append,
          List.nil_append]
        rw [queryCount_cons_apiQuery]
        omega

theorem docCount_cons_parse (l : List Effect) :
    docCount (Effect.parseBody :: l) = docCount l := by
  simp [docCount, List.countP_cons, isDocE]

theorem queryCount_cons_parse (l : List Effect) :
    queryCount (Effect.parseBody :: l) = queryCount l := by
  simp [queryCount, List.countP_cons, isQueryE]

theorem docCount_psa (w : World) (a : Asset) (release : ReleaseInfo) :
    docCount (processSingleAsset w a release) ≤ 1 := by
  rw [processSingleAsset]
  cases resolvedContent w a with
  | some bytes =>
    dsimp only
    split_ifs <;> simp [docCount, List.countP_cons, isDocE]
  | none => simp [docCount, List.countP_cons, isDocE]

theorem queryCount_psa (w : World) (a : Asset) (release : ReleaseInfo) :
    queryCount (processSingleAsset w a release) = 0 := by
  rw [processSingleAsset]
  cases resolvedContent w a with
  | some bytes =>
    dsimp only
    split_ifs <;> simp [queryCount, List.countP_cons, isQueryE]
  | none => simp [queryCount, List.countP_cons, isQueryE]

theorem docCount_handleEvent (w : World) (data : EventData) :
    docCount (handleEvent w data).2 ≤ 1 := by
  rw [handleEvent]
  split
  · simp [docCount]
  · dsimp only
    cases hm : (retryLoop w data.release.id (data.release.tag_name.getD
        "unknown") (List.range' 1 MAX_RETRY_ATTEMPTS)).1 with
    | some a =>
      simp only [hm]
      rw [docCount_append, docCount_append, docCount_map_sendMessage,
        docCount_retryLoop]
      simpa using docCount_psa w a data.release
    | none =>
      simp only [hm]
      rw [docCount_append, docCount_append, docCount_map_sendMessage,
        docCount_retryLoop]
      simp [docCount, List.countP_cons, isDocE]

theorem queryCount_handleEvent (w : World) (data : EventData) :
    queryCount (handleEvent w data).2 ≤ MAX_RETRY_ATTEMPTS := by
  rw [handleEvent]
  split
  · simp [queryCount]
  · dsimp only
    cases hm : (retryLoop w data.release.id (data.release.tag_name.getD
        "unknown") (List.range' 1 MAX_RETRY_ATTEMPTS)).1 with
    | some a =>
      simp only [hm]
      rw [queryCount_append, queryCount_append, queryCount_map_sendMessage,
        queryCount_psa]
      have h := queryCount_retryLoop w data.release.id
        (data.release.tag_name.getD "unknown") (List.range' 1 MAX_RETRY_ATTEMPTS)
      simpa [List.length_range'] using h
    | none =>
      simp only [hm]
      rw [queryCount_append, queryCount_append, queryCount_map_sendMessage]
      have h := queryCount_retryLoop w data.release.id
        (data.release.tag_name.getD "unknown") (List.range' 1 MAX_RETRY_ATTEMPTS)
      have h2 : queryCount [Effect.sendMessage (noAssetMsg
          (data.release.tag_name.getD "unknown")
          (data.release.html_url.getD ""))] = 0 := rfl
      rw [h2]
      simpa [List.length_range'] using h

theorem docCount_doPOST (cfg : Config) (w : World) (req : Req) :
    docCount (doPOST cfg w req).2 ≤ 1 := by
  rw [doPOST]
  split
  · simp [docCount]
  · cases hs : req.sigHeader with
    | none => simp [docCount]
    | some sig =>
      dsimp only
      split_ifs
      · simp [docCount]
      · simp [docCount]
      · cases hp : w.parse (req.rfile.take (req.contentLength.getD 0)) with
        | none => simp [hp, docCount, List.countP_cons, isDocE]
        | some data =>
          simp only [hp]
          rw [docCount_cons_parse]
          exact docCount_handleEvent w data

theorem queryCount_doPOST (cfg : Config) (w : World) (req : Req) :
    queryCount (doPOST cfg w req).2 ≤ MAX_RETRY_ATTEMPTS := by
  rw [doPOST]
  split
  · simp [queryCount]
  · cases hs : req.sigHeader with
    | none => simp [queryCount]
    | some sig =>
      dsimp only
      split_ifs
      · simp [queryCount]
      · simp [queryCount]
      · cases hp : w.parse (req.rfile.take (req.contentLength.getD 0)) with
        | none => simp [hp, queryCount, List.countP_cons, isQueryE]
        | some data =>
          simp only [hp]
          rw [queryCount_cons_parse]
          exact queryCount_handleEvent w data

theorem retryLoop_first_hit (w : World) (rid : Option Nat) (tag : String)
    (k : Nat) (rest : List Nat) (a : Asset)
    (hq : fetchQueried rid tag = true)
    (hf : ((w.fetchAssets k).getD []).find? assetMatches = some a) :
    retryLoop w rid tag (k :: rest) = (some a, [Effect.apiQuery k]) := by
  rw [retryLoop]
  simp only [hq, if_true, hf]

/-- C3 counterexample: an asset whose name contains "kernel" before
"any" — a match under the claim's "either order" reading — is neither
matched by the compiled pattern nor selected from a listing. -/
theorem c3_counterexample :
    anyKernelSearch "Kernel-Any.zip" = false ∧
      ([⟨some "Kernel-Any.zip", none, none, none⟩] : List Asset).find?
        assetMatches = none := by
  decide

/-- C3 amended: the resolver selects the first asset (in API order)
whose nonempty name, lowercased, contains "any" followed — not in
either order — by "kernel"; the first hit short-circuits the retry
loop after a single query, and every request forwards at most one
document. -/
theorem c3_first_match :
    (∀ (assets : List Asset) (a : Asset),
        assets.find? assetMatches = some a →
        ∃ pre suf, assets = pre ++ a :: suf ∧ assetMatches a = true ∧
          ∀ b ∈ pre, assetMatches b = false) ∧
      (∀ a : Asset, assetMatches a = true ↔
          ∃ n : String, a.name = some n ∧ n ≠ "" ∧
            ∃ x y z, n.data.map lowerChar =
              x ++ ['a', 'n', 'y'] ++ y ++ ['k', 'e', 'r', 'n', 'e', 'l'] ++ z) ∧
      (∀ (w : World) (rid : Option Nat) (tag : String) (k : Nat)
          (rest : List Nat) (a : Asset),
          fetchQueried rid tag = true →
          ((w.fetchAssets k).getD []).find? assetMatches = some a →
          retryLoop w rid tag (k :: rest) = (some a, [Effect.apiQuery k])) ∧
      (∀ (cfg : Config) (w : World) (req : Req),
          docCount (doPOST cfg w req).2 ≤ 1) :=
  ⟨fun assets => find?_first_match assetMatches assets, assetMatches_iff,
   retryLoop_first_hit, docCount_doPOST⟩

def assetNoMatch : Asset := ⟨some "changelog.txt", none, none, none⟩

def assetKernel : Asset :=
  ⟨some "AnyKernel3-v1.zip", some 1024, some "http://e.x/a.zip",
   some "http://api/a"⟩

def worldAK : World :=
  ⟨fun _ => none, fun _ => some [assetNoMatch, assetKernel], fun _ => none,
   fun _ => none, true⟩

/-- C3 witness: on the spec's example listing the second asset is the
first (and only) match, and one query short-circuits the loop. -/
theorem c3_first_match_witness :
    (∃ pre suf, [assetNoMatch, assetKernel] = pre ++ assetKernel :: suf ∧
        assetMatches assetKernel = true ∧ ∀ b ∈ pre, assetMatches b = false) ∧
      retryLoop worldAK none "v1" [1, 2, 3, 4] =
        (some assetKernel, [Effect.apiQuery 1]) :=
  ⟨c3_first_match.1 _ _ (by decide),
   c3_first_match.2.2.1 worldAK none "v1" 1 [2, 3, 4] assetKernel (by decide)
     (by decide)⟩

theorem retryLoop_fail_as_empty (w : World) (rid : Option Nat) (tag : String) :
    ∀ attempts : List Nat,
      retryLoop { w with fetchAssets := fun k => some ((w.fetchAssets k).getD []) }
          rid tag attempts =
        retryLoop w rid tag attempts := by
  intro attempts
  induction attempts with
  | nil => rfl
  | cons k rest ih =>
    rw [retryLoop, retryLoop]
    dsimp only
    have he : (if fetchQueried rid tag then
          some ((w.fetchAssets k).getD []) else none).getD [] =
        (if fetchQueried rid tag then w.fetchAssets k else none).getD [] := by
      cases fetchQueried rid tag <;> simp
    rw [he, ih]

theorem retryLoop_no_match (w : World) (rid : Option Nat) (tag : String)
    (hnm : ∀ k, ((w.fetchAssets k).getD []).find? assetMatches = none) :
    ∀ attempts : List Nat, (retryLoop w rid tag attempts).1 = none := by
  intro attempts
  induction attempts with
  | nil => rfl
  | cons k rest ih =>
    rw [retryLoop]
    dsimp only
    have hf : ((if fetchQueried rid tag then w.fetchAssets k else
        none).getD []).find? assetMatches = none := by
      cases fetchQueried rid tag
      · simp [List.find?]
      · simpa using hnm k
    simp only [hf]
    exact ih

theorem handleEvent_no_match (w : World) (data : EventData)
    (hact : data.action = some "published")
    (hnm : ∀ k, ((w.fetchAssets k).getD []).find? assetMatches = none) :
    (handleEvent w data).1 = respOK ∧
      (handleEvent w data).2.getLast? =
        some (Effect.sendMessage (noAssetMsg
          (data.release.tag_name.getD "unknown")
          (data.release.html_url.getD ""))) := by
  rw [handleEvent, if_neg (not_not_intro hact)]
  dsimp only
  have h1 := retryLoop_no_match w data.release.id
    (data.release.tag_name.getD "unknown") hnm (List.range' 1 MAX_RETRY_ATTEMPTS)
  simp only [h1]
  exact ⟨trivial, List.getLast?_concat _⟩

/-- C4: at most `MAX_RETRY_ATTEMPTS` (4) release-API queries occur per
request; a failed query (`None`) behaves exactly like an empty asset
listing for that attempt; and when no attempt yields a match the
handler finishes normally (status field `respOK`) with a final text
message that embeds the release page URL. -/
theorem c4_retry_policy :
    (∀ (cfg : Config) (w : World) (req : Req),
        queryCount (doPOST cfg w req).2 ≤ MAX_RETRY_ATTEMPTS) ∧
      (∀ (w : World) (rid : Option Nat) (tag : String) (attempts : List Nat),
          retryLoop
              { w with fetchAssets := fun k => some ((w.fetchAssets k).getD []) }
              rid tag attempts =
            retryLoop w rid tag attempts) ∧
      (∀ (w : World) (data : EventData),
          data.action = some "published" →
          (∀ k, ((w.fetchAssets k).getD []).find? assetMatches = none) →
          (handleEvent w data).1 = respOK ∧
            (handleEvent w data).2.getLast? =
              some (Effect.sendMessage (noAssetMsg
                (data.release.tag_name.getD "unknown")
                (data.release.html_url.getD "")))) :=
  ⟨queryCount_doPOST, retryLoop_fail_as_empty, handleEvent_no_match⟩

def dataPub : EventData :=
  ⟨some "published", ⟨some "o/r", some "http://gh/o/r"⟩,
   ⟨some 5, some "v1", some "R", some "http://gh/o/r/rel/v1",
    some "2025-01-01", some "notes"⟩, ⟨some "u", some "http://gh/u"⟩⟩

/-- C4 witness: with every query failing, the handler ends normally
and its last outbound call is the "no asset" notice carrying the
release URL. -/
theorem c4_retry_policy_witness :
    (handleEvent trivWorld dataPub).1 = respOK ∧
      (handleEvent trivWorld dataPub).2.getLast? =
        some (Effect.sendMessage (noAssetMsg "v1" "http://gh/o/r/rel/v1")) :=
  c4_retry_policy.2.2 trivWorld dataPub rfl (fun _ => rfl)

/-- The text messages of a trace, in order. -/
def msgTexts (l : List Effect) : List String :=
  l.filterMap fun e =>
    match e with
    | Effect.sendMessage t => some t
    | _ => none

/-- Successful document delivery: content resolved, within the 20 MB
ceiling, and `sendDocument` reported success. -/
def deliveredB (w : World) (a : Asset) : Bool :=
  match resolvedContent w a with
  | some b => decide (b.length ≤ TELEGRAM_MAX_UPLOAD_BYTES) && w.sendDocOk
  | none => false

/-- C5 amended: content above the 20 MB ceiling is never uploaded (no
`sendDocument`) and yields exactly the link-only fallback; whenever the
document is not delivered — fetch failure, size rejection, or a failed
upload — exactly one fallback text is sent, namely the fixed template
holding the Markdown-escaped asset name and the
`browser_download_url or url` field; on successful delivery no text is
sent. -/
theorem c5_fallback_policy :
    ∀ (w : World) (a : Asset) (release : ReleaseInfo),
      (∀ bytes : List Nat, resolvedContent w a = some bytes →
          bytes.length > TELEGRAM_MAX_UPLOAD_BYTES →
          docCount (processSingleAsset w a release) = 0 ∧
            processSingleAsset w a release =
              [Effect.sendMessage (fallbackMsg a)]) ∧
        (deliveredB w a = false →
          msgTexts (processSingleAsset w a release) = [fallbackMsg a]) ∧
        (deliveredB w a = true →
          msgTexts (processSingleAsset w a release) = []) := by
  intro w a release
  refine ⟨?_, ?_, ?_⟩
  · intro bytes hres hbig
    rw [processSingleAsset]
    simp only [hres]
    rw [if_neg (Nat.not_le.mpr hbig)]
    exact ⟨rfl, rfl⟩
  · intro hdel
    unfold deliveredB at hdel
    rw [processSingleAsset]
    cases hres : resolvedContent w a with
    | none => simp [msgTexts]
    | some bytes =>
      simp only [hres] at hdel
      by_cases hlen : bytes.length ≤ TELEGRAM_MAX_UPLOAD_BYTES
      · have hok : w.sendDocOk = false := by
          cases hok2 : w.sendDocOk
          · rfl
          · simp [hok2, hlen] at hdel
        simp only [hres]
        rw [if_pos hlen, if_neg (by simp [hok])]
        simp [msgTexts]
      · simp only [hres]
        rw [if_neg hlen]
        simp [msgTexts]
  · intro hdel
    unfold deliveredB at hdel
    rw [processSingleAsset]
    cases hres : resolvedContent w a with
    | none => simp [hres] at hdel
    | some bytes =>
      simp only [hres] at hdel
      rcases Bool.and_eq_true_iff.mp hdel with ⟨hlen, hok⟩
      simp only [hres]
      rw [if_pos (of_decide_eq_true hlen), if_pos (by simp [hok])]
      simp [msgTexts]

def assetTick : Asset :=
  ⟨some "Any`Kernel.zip", none, some "http://e.x/f.zip", none⟩

def relEmpty : ReleaseInfo := ⟨none, none, none, none, none, none⟩

/-- C5 counterexample: for a matched asset whose name contains a
backtick the single fallback message does not contain the asset name
(the name is embedded Markdown-escaped), so the claim's "containing the
asset name" fails as stated. -/
theorem c5_counterexample :
    assetMatches assetTick = true ∧
      processSingleAsset trivWorld assetTick relEmpty =
        [Effect.sendMessage (fallbackMsg assetTick)] ∧
      containsSeq ("Any`Kernel.zip".data) ((fallbackMsg assetTick).data) =
        false := by
  decide

def bigBytes : List Nat := List.replicate 20971521 0

def assetBig : Asset :=
  ⟨some "AnyKernel-big.zip", none, some "http://e.x/big.zip",
   some "http://api/big"⟩

def worldBig : World :=
  ⟨fun _ => none, fun _ => none, fun _ => some bigBytes, fun _ => none, true⟩

/-- C5 witness: a 20 MB + 1 byte download is not uploaded and produces
only the fallback; a failed fetch produces exactly the fallback text. -/
theorem c5_fallback_policy_witness :
    (docCount (processSingleAsset worldBig assetBig relEmpty) = 0 ∧
        processSingleAsset worldBig assetBig relEmpty =
          [Effect.sendMessage (fallbackMsg assetBig)]) ∧
      msgTexts (processSingleAsset trivWorld assetTick relEmpty) =
        [fallbackMsg assetTick] :=
  ⟨(c5_fallback_policy worldBig assetBig relEmpty).1 bigBytes rfl
      (by unfold bigBytes TELEGRAM_MAX_UPLOAD_BYTES
          rw [List.length_replicate]
          omega),
   (c5_fallback_policy trivWorld assetTick relEmpty).2.1 (by decide)⟩

def evilEvent : EventData :=
  ⟨some "published", ⟨some "o/r", some "http://gh/o/r"⟩,
   ⟨some 7, some "v2", some "R", some "http://gh/rel", some "t",
    some "`code`"⟩,
   ⟨some "[evil](http://x)", some "http://gh/evil"⟩⟩

/-- C7: the notification summary embeds untrusted release fields raw —
the sender login `[evil](http://x)` and the release-notes backticks
appear verbatim in the transmitted Markdown — although `safe_markdown`
(which the claim says is applied) would have removed every `[` and
backtick.  The code only escapes the asset name in the fallback
message. -/
theorem c7_fields_not_escaped :
    containsSeq ("[evil](http://x)".data) ((buildMessage evilEvent).data) =
        true ∧
      containsSeq ("`code`".data) ((buildMessage evilEvent).data) = true ∧
      (safe_markdown "[evil](http://x)").data.contains '[' = false ∧
      (safe_markdown "`code`").data.contains '`' = false := by
  decide

/-! ## Chunker lemmas (C6) -/

theorem dropWhile_head_false (p : Char → Bool) :
    ∀ (l : List Char) (a : Char) (t : List Char),
      l.dropWhile p = a :: t → p a = false := by
  intro l
  induction l with
  | nil =>
    intro a t h
    simp [List.dropWhile] at h
  | cons x xs ih =>
    intro a t h
    rw [List.dropWhile] at h
    cases hx : p x with
    | true =>
      rw [hx] at h
      exact ih a t h
    | false =>
      rw [hx] at h
      injection h with h1 _
      exact h1 ▸ hx

theorem getLast?_mem' : ∀ (l : List Char) (c : Char),
    l.getLast? = some c → c ∈ l := by
  intro l
  induction l with
  | nil =>
    intro c h
    simp at h
  | cons x xs ih =>
    intro c h
    cases xs with
    | nil => simp_all
    | cons y ys =>
      rw [List.getLast?_cons_cons] at h
      exact List.mem_cons_of_mem x (ih c h)

theorem pyStripL_sublist (l : List Char) : List.Sublist (pyStripL l) l :=
  List.dropWhile_sublist isPySpace

theorem pyStripR_sublist (l : List Char) : List.Sublist (pyStripR l) l := by
  have h := (List.dropWhile_sublist isPySpace (l := l.reverse)).reverse
  rwa [List.reverse_reverse] at h

theorem pyStrip_sublist (l : List Char) : List.Sublist (pyStrip l) l :=
  (pyStripR_sublist (pyStripL l)).trans (pyStripL_sublist l)

theorem pyStripR_last_lt (l : List Char) (c : Char) (h : l.getLast? = some c)
    (hws : isPySpace c = true) : (pyStripR l).length < l.length := by
  have hrev : l.reverse.head? = some c := by rw [List.head?_reverse, h]
  cases hr : l.reverse with
  | nil => simp [hr] at hrev
  | cons x xs =>
    rw [hr] at hrev
    injection hrev with hx
    subst hx
    have hlen : l.length = xs.length + 1 := by
      have := congrArg List.length hr
      simpa [List.length_reverse] using this
    have hd : (x :: xs).dropWhile isPySpace = xs.dropWhile isPySpace := by
      rw [List.dropWhile, hws]
    calc (pyStripR l).length
        = ((x :: xs).dropWhile isPySpace).length := by
          rw [pyStripR, hr, List.length_reverse]
      _ = (xs.dropWhile isPySpace).length := by rw [hd]
      _ ≤ xs.length := (List.dropWhile_sublist isPySpace).length_le
      _ < l.length := by omega

theorem pyStripL_getLast? (l : List Char) (h : pyStripL l ≠ []) :
    (pyStripL l).getLast? = l.getLast? := by
  rcases List.dropWhile_suffix (p := isPySpace) (l := l) with ⟨pre, hpre⟩
  have h' : List.dropWhile isPySpace l ≠ [] := h
  conv_rhs => rw [← hpre]
  rw [List.getLast?_append_of_ne_nil pre h']
  rfl

theorem pyStrip_length_lt (l : List Char) (c : Char) (h : l.getLast? = some c)
    (hws : isPySpace c = true) : (pyStrip l).length < l.length := by
  by_cases he : pyStripL l = []
  · have hne : l ≠ [] := by
      intro h0
      rw [h0] at h
      simp at h
    have : 0 < l.length := List.length_pos.mpr hne
    rw [pyStrip, he]
    simpa [pyStripR] using this
  · have h2 : (pyStripL l).getLast? = some c := by
      rw [pyStripL_getLast? l he, h]
    calc (pyStrip l).length < (pyStripL l).length :=
        pyStripR_last_lt (pyStripL l) c h2 hws
      _ ≤ l.length := (pyStripL_sublist l).length_le

theorem pyStrip_last_not_ws (l : List Char) :
    pyStrip l = [] ∨
      ∃ c, (pyStrip l).getLast? = some c ∧ isPySpace c = false := by
  rw [pyStrip, pyStripR]
  cases hd : (pyStripL l).reverse.dropWhile isPySpace with
  | nil => left; rfl
  | cons x xs =>
    right
    refine ⟨x, ?_, dropWhile_head_false isPySpace _ x xs hd⟩
    rw [List.getLast?_reverse]
    rfl

theorem chunksF_flatten (L : Nat) (hL : 0 < L) :
    ∀ (fuel : Nat) (l : List Char), l.length ≤ fuel →
      (chunksF L fuel l).flatten = l := by
  intro fuel
  induction fuel with
  | zero =>
    intro l hl
    have : l = [] := List.length_eq_zero.mp (Nat.le_zero.mp hl)
    subst this
    rfl
  | succ n ih =>
    intro l hl
    cases l with
    | nil => rfl
    | cons x xs =>
      have he : chunksF L (n + 1) (x :: xs) =
          (x :: xs).take L :: chunksF L n ((x :: xs).drop L) := rfl
      rw [he]
      rw [List.flatten_cons, ih ((x :: xs).drop L) (by
        rw [List.length_drop]
        simp at hl ⊢
        omega)]
      exact List.take_append_drop L (x :: xs)

theorem chunksF_length_le (L : Nat) :
    ∀ (fuel : Nat) (l m : List Char), m ∈ chunksF L fuel l → m.length ≤ L := by
  intro fuel
  induction fuel with
  | zero =>
    intro l m hm
    cases l <;> simp [chunksF] at hm
  | succ n ih =>
    intro l m hm
    cases l with
    | nil => simp [chunksF] at hm
    | cons x xs =>
      have he : chunksF L (n + 1) (x :: xs) =
          (x :: xs).take L :: chunksF L n ((x :: xs).drop L) := rfl
      rw [he] at hm
      rcases List.mem_cons.mp hm with rfl | h2
      · exact List.length_take_le L (x :: xs)
      · exact ih _ m h2

theorem chunksF_mem_subset (L : Nat) :
    ∀ (fuel : Nat) (l m : List Char), m ∈ chunksF L fuel l →
      ∀ c ∈ m, c ∈ l := by
  intro fuel
  induction fuel with
  | zero =>
    intro l m hm
    cases l <;> simp [chunksF] at hm
  | succ n ih =>
    intro l m hm c hc
    cases l with
    | nil => simp [chunksF] at hm
    | cons x xs =>
      have he : chunksF L (n + 1) (x :: xs) =
          (x :: xs).take L :: chunksF L n ((x :: xs).drop L) := rfl
      rw [he] at hm
      rcases List.mem_cons.mp hm with rfl | h2
      · exact List.take_subset L (x :: xs) hc
      · exact List.drop_subset L (x :: xs) (ih _ m h2 c hc)

theorem splitlinesGo_no_break :
    ∀ (acc t : List Char), (∀ c ∈ acc, isLineBreak c = false) →
      ∀ line ∈ splitlinesGo acc t, ∀ c ∈ line, isLineBreak c = false := by
  intro acc t
  induction acc, t using splitlinesGo.induct with
  | case1 =>
    intro hacc line hline
    rw [splitlinesGo] at hline
    simp at hline
  | case2 =>
    intro hacc line hline
    rw [splitlinesGo] at hline
    split at hline
    · simp at hline
    · rw [List.mem_singleton] at hline
      exact hline ▸ hacc
  | case3 acc rest ih =>
    intro hacc line hline
    rw [splitlinesGo] at hline
    rcases List.mem_cons.mp hline with rfl | h2
    · exact hacc
    · exact ih (by simp) line h2
  | case4 acc c rest hx hbr ih =>
    intro hacc line hline
    rw [splitlinesGo.eq_3 acc c rest hx, if_pos hbr] at hline
    rcases List.mem_cons.mp hline with rfl | h2
    · exact hacc
    · exact ih (by simp) line h2
  | case5 acc c rest hx hbr ih =>
    intro hacc line hline
    rw [splitlinesGo.eq_3 acc c rest hx, if_neg hbr] at hline
    refine ih ?_ line hline
    intro d hd
    rcases List.mem_append.mp hd with hd1 | hd2
    · exact hacc d hd1
    · rw [List.mem_singleton] at hd2
      subst hd2
      simpa using hbr

/-- Texts whose only line terminator is a plain newline. -/
def onlyNL (t : List Char) : Bool :=
  t.all fun c => !(isLineBreak c) || c == '\n'

theorem splitlinesGo_join_nl :
    ∀ acc t : List Char, onlyNL t = true →
      ((splitlinesGo acc t).map (fun l => l ++ ['\n'])).flatten =
          acc ++ t ++ ['\n'] ∨
        ((splitlinesGo acc t).map (fun l => l ++ ['\n'])).flatten = acc ++ t := by
  intro acc t
  induction acc, t using splitlinesGo.induct with
  | case1 =>
    intro _
    right
    rfl
  | case2 acc hacc =>
    intro _
    left
    rw [splitlinesGo, if_neg hacc]
    simp
  | case3 acc rest ih =>
    intro h
    exfalso
    have hc : (!(isLineBreak '\r') || ('\r' == '\n')) = false := by decide
    rw [onlyNL, List.all_cons, hc] at h
    simp at h
  | case4 acc c rest hx hbr ih =>
    intro h
    have hcn : c = '\n' := by
      rw [onlyNL, List.all_cons] at h
      rcases Bool.and_eq_true_iff.mp h with ⟨h1, _⟩
      rcases Bool.or_eq_true_iff.mp h1 with h2 | h2
      · rw [hbr] at h2
        simp at h2
      · exact eq_of_beq h2
    subst hcn
    have hrest : onlyNL rest = true := by
      rw [onlyNL, List.all_cons] at h
      exact (Bool.and_eq_true_iff.mp h).2
    rw [splitlinesGo.eq_3 acc _ rest hx, if_pos hbr]
    rcases ih hrest with h1 | h1
    · left
      simp only [List.map_cons, List.flatten_cons]
      rw [h1]
      simp [List.append_assoc]
    · right
      simp only [List.map_cons, List.flatten_cons]
      rw [h1]
      simp [List.append_assoc]
  | case5 acc c rest hx hbr ih =>
    intro h
    have hrest : onlyNL rest = true := by
      rw [onlyNL, List.all_cons] at h
      exact (Bool.and_eq_true_iff.mp h).2
    rw [splitlinesGo.eq_3 acc c rest hx, if_neg hbr]
    rcases ih hrest with h1 | h1
    · left
      rw [h1]
      simp [List.append_assoc]
    · right
      rw [h1]
      simp [List.append_assoc]

theorem flatten_getLast?_ne (msgs : List (List Char))
    (h : ∀ m ∈ msgs, m.getLast? ≠ some '\n') :
    msgs.flatten.getLast? ≠ some '\n' := by
  induction msgs with
  | nil => simp
  | cons m rest ih =>
    rw [List.flatten_cons]
    by_cases hr : rest.flatten = []
    · rw [hr, List.append_nil]
      exact h m (List.mem_cons_self m rest)
    · rw [List.getLast?_append_of_ne_nil m hr]
      exact ih fun m2 hm2 => h m2 (List.mem_cons_of_mem m hm2)

theorem sublist_of_concat_nl (l t : List Char)
    (hs : List.Sublist l (t ++ ['\n'])) (hl : l.getLast? ≠ some '\n') :
    List.Sublist l t := by
  rcases List.sublist_append_iff.mp hs with ⟨l1, l2, rfl, h1, h2⟩
  rcases List.sublist_singleton.mp h2 with rfl | rfl
  · simpa using h1
  · exact absurd (List.getLast?_concat l1) hl

theorem pyStrip_getLast?_ne (cur : List Char) :
    (pyStrip cur).getLast? ≠ some '\n' := by
  rcases pyStrip_last_not_ws cur with he | ⟨c, hc, hcs⟩
  · rw [he]
    simp
  · rw [hc]
    intro hco
    injection hco with h2
    rw [h2] at hcs
    exact absurd hcs (by decide)

theorem chunkLoop_last (L : Nat) :
    ∀ (lines : List (List Char)) (cur : List Char) (msgs : List (List Char)),
      (∀ line ∈ lines, ∀ c ∈ line, isLineBreak c = false) →
      (∀ m ∈ msgs, m.getLast? ≠ some '\n') →
      ∀ m ∈ chunkLoop L lines cur msgs, m.getLast? ≠ some '\n' := by
  intro lines
  induction lines with
  | nil =>
    intro cur msgs _ hmsgs m hm
    rw [chunkLoop] at hm
    split at hm
    · rcases List.mem_append.mp hm with h1 | h1
      · exact hmsgs m h1
      · rw [List.mem_singleton] at h1
        exact h1 ▸ pyStrip_getLast?_ne cur
    · exact hmsgs m hm
  | cons line rest ih =>
    intro cur msgs hlines hmsgs m hm
    rw [chunkLoop] at hm
    split at hm
    · exact ih (cur ++ line ++ ['\n']) msgs
        (fun l hl => hlines l (List.mem_cons_of_mem _ hl)) hmsgs m hm
    · dsimp only at hm
      have hm1 : ∀ m2 ∈ (if cur ≠ [] then msgs ++ [pyStrip cur] else msgs),
          m2.getLast? ≠ some '\n' := by
        intro m2 hm2
        split at hm2
        · rcases List.mem_append.mp hm2 with h1 | h1
          · exact hmsgs m2 h1
          · rw [List.mem_singleton] at h1
            exact h1 ▸ pyStrip_getLast?_ne cur
        · exact hmsgs m2 hm2
      by_cases hhard : line.length > L
      · rw [if_pos hhard] at hm
        refine ih [] _ (fun l hl => hlines l (List.mem_cons_of_mem _ hl))
          ?_ m hm
        intro m2 hm2
        rcases List.mem_append.mp hm2 with h1 | h1
        · exact hm1 m2 h1
        · intro hco
          have hmem := getLast?_mem' m2 '\n' hco
          have hbr := hlines line (List.mem_cons_self _ _) '\n'
            (chunksF_mem_subset L _ line m2 h1 '\n' hmem)
          exact absurd hbr (by decide)
      · rw [if_neg hhard] at hm
        exact ih (line ++ ['\n']) _
          (fun l hl => hlines l (List.mem_cons_of_mem _ hl)) hm1 m hm

/-- Invariant of the accumulating segment: empty, or newline-terminated
with length at most `L + 1`. -/
def curInv (L : Nat) (cur : List Char) : Prop :=
  cur = [] ∨ (cur.length ≤ L + 1 ∧ cur.getLast? = some '\n')

theorem pyStrip_len_of_inv (L : Nat) (cur : List Char) (h : curInv L cur) :
    (pyStrip cur).length ≤ L := by
  rcases h with rfl | ⟨hlen, hlast⟩
  · exact Nat.zero_le L
  · have := pyStrip_length_lt cur '\n' hlast (by decide)
    omega

theorem chunkLoop_lengths (L : Nat) :
    ∀ (lines : List (List Char)) (cur : List Char) (msgs : List (List Char)),
      curInv L cur → (∀ m ∈ msgs, m.length ≤ L) →
      ∀ seg ∈ chunkLoop L lines cur msgs, seg.length ≤ L := by
  intro lines
  induction lines with
  | nil =>
    intro cur msgs hinv hmsgs seg hseg
    rw [chunkLoop] at hseg
    split at hseg
    · rcases List.mem_append.mp hseg with h1 | h1
      · exact hmsgs seg h1
      · rw [List.mem_singleton] at h1
        exact h1 ▸ pyStrip_len_of_inv L cur hinv
    · exact hmsgs seg hseg
  | cons line rest ih =>
    intro cur msgs hinv hmsgs seg hseg
    rw [chunkLoop] at hseg
    split at hseg
    case isTrue hfit =>
      refine ih (cur ++ line ++ ['\n']) msgs ?_ hmsgs seg hseg
      right
      refine ⟨?_, List.getLast?_concat _⟩
      simp only [List.length_append, List.length_cons, List.length_nil]
      omega
    case isFalse hfit =>
      dsimp only at hseg
      have hm1 : ∀ m2 ∈ (if cur ≠ [] then msgs ++ [pyStrip cur] else msgs),
          m2.length ≤ L := by
        intro m2 hm2
        split at hm2
        · rcases List.mem_append.mp hm2 with h1 | h1
          · exact hmsgs m2 h1
          · rw [List.mem_singleton] at h1
            exact h1 ▸ pyStrip_len_of_inv L cur hinv
        · exact hmsgs m2 hm2
      by_cases hhard : line.length > L
      · rw [if_pos hhard] at hseg
        refine ih [] _ (Or.inl rfl) ?_ seg hseg
        intro m2 hm2
        rcases List.mem_append.mp hm2 with h1 | h1
        · exact hm1 m2 h1
        · exact chunksF_length_le L _ line m2 h1
      · rw [if_neg hhard] at hseg
        refine ih (line ++ ['\n']) _ ?_ hm1 seg hseg
        right
        refine ⟨?_, List.getLast?_concat _⟩
        simp only [List.length_append, List.length_cons, List.length_nil]
        omega

theorem chunkLoop_join_sub (L : Nat) (hL : 0 < L) :
    ∀ (lines : List (List Char)) (cur : List Char) (msgs : List (List Char)),
      List.Sublist (chunkLoop L lines cur msgs).flatten
        (msgs.flatten ++ cur ++
          (lines.map (fun l => l ++ ['\n'])).flatten) := by
  intro lines
  induction lines with
  | nil =>
    intro cur msgs
    rw [chunkLoop]
    split
    · rw [List.flatten_append]
      simp only [List.flatten_cons, List.flatten_nil, List.append_nil,
        List.map_nil]
      exact List.Sublist.append (List.Sublist.refl _) (pyStrip_sublist cur)
    · simp only [List.map_nil, List.flatten_nil, List.append_nil]
      exact List.sublist_append_left _ _
  | cons line rest ih =>
    intro cur msgs
    rw [chunkLoop]
    split
    · have h := ih (cur ++ line ++ ['\n']) msgs
      simp only [List.map_cons, List.flatten_cons, List.append_assoc,
        List.singleton_append] at h ⊢
      exact h
    · dsimp only
      have hmflat : (if cur ≠ [] then msgs ++ [pyStrip cur] else msgs).flatten =
          msgs.flatten ++ pyStrip cur := by
        split
        · simp [List.flatten_append]
        · next hc =>
          have hc2 : cur = [] := not_not.mp hc
          subst hc2
          simp [show pyStrip ([] : List Char) = [] from rfl]
      by_cases hhard : line.length > L
      · rw [if_pos hhard]
        have h := ih []
          ((if cur ≠ [] then msgs ++ [pyStrip cur] else msgs) ++
            chunksF L line.length line)
        rw [List.flatten_append, hmflat,
          chunksF_flatten L hL line.length line (le_refl _)] at h
        simp only [List.append_assoc, List.append_nil, List.nil_append] at h
        simp only [List.map_cons, List.flatten_cons, List.append_assoc,
          List.singleton_append]
        refine h.trans ?_
        refine List.Sublist.append (List.Sublist.refl _) ?_
        refine List.Sublist.append (pyStrip_sublist cur) ?_
        refine List.Sublist.append (List.Sublist.refl _) ?_
        exact List.sublist_cons_self _ _
      · rw [if_neg hhard]
        have h := ih (line ++ ['\n'])
          (if cur ≠ [] then msgs ++ [pyStrip cur] else msgs)
        rw [hmflat] at h
        simp only [List.append_assoc, List.singleton_append] at h
        simp only [List.map_cons, List.flatten_cons, List.append_assoc,
          List.singleton_append]
        refine h.trans ?_
        refine List.Sublist.append (List.Sublist.refl _) ?_
        exact List.Sublist.append (pyStrip_sublist cur) (List.Sublist.refl _)

/-- C6 counterexample: for limit 5 and the 7-character text
`"aaa\nbbb"`, the chunks are `["aaa", "bbb"]`; their concatenation
drops the newline, so it does not reproduce the text. -/
theorem c6_counterexample :
    ("aaa\nbbb".data.length > 5) ∧
      pyChunk 5 "aaa\nbbb".data = ["aaa".data, "bbb".data] ∧
      (pyChunk 5 "aaa\nbbb".data).flatten ≠ "aaa\nbbb".data := by
  decide

/-- C6 amended: the chunker is a pure function of (text, limit); a text
within the limit is returned unchanged as the single segment; a longer
text yields segments of length at most the limit whose concatenation is
a subsequence of the text (for texts whose only line terminator is
`'\n'`) — exact reproduction fails because inter-segment newlines and
boundary whitespace are dropped. -/
theorem c6_chunker :
    ∀ (L : Nat) (text : List Char), 0 < L →
      (text.length ≤ L → pyChunk L text = [text]) ∧
      (text.length > L →
        (∀ seg ∈ pyChunk L text, seg.length ≤ L) ∧
        (onlyNL text = true →
          List.Sublist (pyChunk L text).flatten text)) := by
  intro L text hL
  constructor
  · intro hle
    rw [pyChunk, if_pos hle]
  · intro hgt
    have hpc : pyChunk L text = chunkLoop L (splitlines text) [] [] := by
      rw [pyChunk, if_neg (by omega)]
    constructor
    · rw [hpc]
      exact chunkLoop_lengths L (splitlines text) [] [] (Or.inl rfl) (by simp)
    · intro honly
      rw [hpc]
      have hsub := chunkLoop_join_sub L hL (splitlines text) [] []
      simp only [List.flatten_nil, List.nil_append] at hsub
      rcases splitlinesGo_join_nl [] text honly with hjoin | hjoin
      · have hjoin' : ((splitlines text).map fun l => l ++ ['\n']).flatten =
            text ++ ['\n'] := by simpa [splitlines] using hjoin
        rw [hjoin'] at hsub
        have hlast := chunkLoop_last L (splitlines text) [] []
          (splitlinesGo_no_break [] text (by simp)) (by simp)
        exact sublist_of_concat_nl _ text hsub (flatten_getLast?_ne _ hlast)
      · have hjoin' : ((splitlines text).map fun l => l ++ ['\n']).flatten =
            text := by simpa [splitlines] using hjoin
        rw [hjoin'] at hsub
        exact hsub

/-- C6 witness: the pass-through case, a segment-length bound, and the
subsequence property evaluated at limit 5. -/
theorem c6_chunker_witness :
    pyChunk 5 "ab".data = ["ab".data] ∧
      ("aaa".data).length ≤ 5 ∧
      List.Sublist (pyChunk 5 "aaa\nbbb".data).flatten "aaa\nbbb".data :=
  ⟨(c6_chunker 5 "ab".data (by decide)).1 (by decide),
   ((c6_chunker 5 "aaa\nbbb".data (by decide)).2 (by decide)).1 "aaa".data
     (by decide),
   ((c6_chunker 5 "aaa\nbbb".data (by decide)).2 (by decide)).2 (by decide)⟩
